import Mathlib

/-!
# Verification of the CKAD practitioner quiz core

Shallow embedding of the quiz session core of the repository
(`src/timer.rs`, `src/quiz_state.rs`, `src/app.rs`).

Time is modelled abstractly: an `Instant` is a natural number of
nanoseconds since an arbitrary epoch, and a `Duration` is a natural
number of nanoseconds.  Rust's `Instant::elapsed` can never be negative
and `Duration::saturating_sub` clamps at zero, both of which coincide
with truncating subtraction on `Nat`.  Every operation that reads the
clock (`Instant::now()`) takes the current instant `now : Nat` as an
explicit argument.
-/

set_option autoImplicit false

/-- `Duration::from_secs` (nanoseconds per second is 10^9). -/
def durationFromSecs (secs : Nat) : Nat :=
  secs * 1000000000

/-- `models.rs`: a quiz question. `usize`/`u64` fields are modelled as `Nat`;
the program never does arithmetic on them that could overflow. -/
structure Question where
  id : Nat
  question : String
  hints : List String
  answer : String
  time_limit_secs : Nat
  deriving Repr, DecidableEq

/-- `timer.rs`: `Timer { started: Instant, limit: Duration }`. -/
structure Timer where
  started : Nat
  limit : Nat
  deriving Repr, DecidableEq

/-- `Timer::new(limit_secs)`: starts at the call instant `now`. -/
def Timer.new (limit_secs : Nat) (now : Nat) : Timer :=
  { started := now, limit := durationFromSecs limit_secs }

/-- `Timer::elapsed` = `self.started.elapsed()`; `Instant::elapsed` is
monotone and never negative, matching `Nat` truncating subtraction. -/
def Timer.elapsed (t : Timer) (now : Nat) : Nat :=
  now - t.started

/-- `Timer::remaining` = `self.limit.saturating_sub(self.elapsed())`. -/
def Timer.remaining (t : Timer) (now : Nat) : Nat :=
  t.limit - t.elapsed now

/-- `Timer::is_expired` = `self.elapsed() >= self.limit`. -/
def Timer.is_expired (t : Timer) (now : Nat) : Bool :=
  t.limit ≤ t.elapsed now

/-- `Timer::reset(limit_secs)`: sets `started` to now, `limit` to the new value. -/
def Timer.reset (_t : Timer) (limit_secs : Nat) (now : Nat) : Timer :=
  { started := now, limit := durationFromSecs limit_secs }

/-- `quiz_state.rs`: `QuizState { questions, current_index, timer }`. -/
structure QuizState where
  questions : List Question
  current_index : Nat
  timer : Timer
  deriving Repr, DecidableEq

/-- `QuizState::new(questions)` reads `questions[0].time_limit_secs` with no
emptiness check, so on an empty vector the Rust code panics with an
index-out-of-bounds; the panic is modelled as `none`. -/
def QuizState.new? (questions : List Question) (now : Nat) : Option QuizState :=
  match questions with
  | [] => none
  | q :: rest =>
      some { questions := q :: rest, current_index := 0,
             timer := Timer.new q.time_limit_secs now }

/-- `QuizState::current_question` = `&self.questions[self.current_index]`;
the out-of-bounds panic is modelled as `none` (unreachable for states
produced by `new?` and the operations below). -/
def QuizState.current_question? (s : QuizState) : Option Question :=
  s.questions.get? s.current_index

/-- `QuizState::total_questions` = `self.questions.len()`. -/
def QuizState.total_questions (s : QuizState) : Nat :=
  s.questions.length

/-- `QuizState::is_last_question` = `self.current_index >= self.questions.len() - 1`.
The `usize` subtraction `len() - 1` underflows only for an empty question
vector, which no constructed session has (construction panics on empty);
`Nat` truncating subtraction is used. -/
def QuizState.is_last_question (s : QuizState) : Bool :=
  s.questions.length - 1 ≤ s.current_index

/-- `QuizState::next_question`: if not on the last question, increment
`current_index` and reset the timer to the new question's limit.  In the
guarded branch `current_index + 1 < questions.len()`, so the indexing
`self.questions[self.current_index]` after the increment is in bounds. -/
def QuizState.next_question (s : QuizState) (now : Nat) : QuizState :=
  if h : s.questions.length - 1 ≤ s.current_index then s
  else
    { s with
      current_index := s.current_index + 1,
      timer := s.timer.reset
        (s.questions.get ⟨s.current_index + 1, by omega⟩).time_limit_secs now }

/-- `quiz_state.rs`: `HintState { show_hints, hint_index }`. -/
structure HintState where
  show_hints : Bool
  hint_index : Nat
  deriving Repr, DecidableEq

/-- `HintState::new()`. -/
def HintState.new : HintState :=
  { show_hints := false, hint_index := 0 }

/-- `HintState::enable_hints`. -/
def HintState.enable_hints (hs : HintState) : HintState :=
  { hs with show_hints := true }

/-- `HintState::next_hint(max_hints)`:
`if self.hint_index < max_hints.saturating_sub(1) { self.hint_index += 1 }`. -/
def HintState.next_hint (hs : HintState) (max_hints : Nat) : HintState :=
  if hs.hint_index < max_hints - 1 then
    { hs with hint_index := hs.hint_index + 1 }
  else hs

/-- `HintState::reset`. -/
def HintState.reset (_hs : HintState) : HintState :=
  { show_hints := false, hint_index := 0 }

/-- `app.rs`: `App { quiz_state, hint_state }`. -/
structure App where
  quiz_state : QuizState
  hint_state : HintState
  deriving Repr, DecidableEq

/-- `App::new(repository)`: builds `QuizState::new(repository.get_questions())`
and a fresh `HintState`; `none` models the panic on an empty bank. -/
def App.new? (questions : List Question) (now : Nat) : Option App :=
  (QuizState.new? questions now).map fun qs =>
    { quiz_state := qs, hint_state := HintState.new }

/-- `App::handle_hint_request`: if the timer is not expired, enable hints
and advance the hint index, with `max_hints` the current question's hint
count.  The `none` branch models the indexing panic of
`current_question()`, unreachable from constructed sessions. -/
def App.handle_hint_request (a : App) (now : Nat) : App :=
  if a.quiz_state.timer.is_expired now then a
  else
    match a.quiz_state.current_question? with
    | some q =>
        { a with hint_state := (a.hint_state.enable_hints).next_hint q.hints.length }
    | none => a

/-- `App::handle_next_question`: only if the timer is expired, advance the
session and reset the hint state. -/
def App.handle_next_question (a : App) (now : Nat) : App :=
  if a.quiz_state.timer.is_expired now then
    { quiz_state := a.quiz_state.next_question now,
      hint_state := a.hint_state.reset }
  else a

/-- Sessions reachable from construction by the two input handlers, each
dispatched at an arbitrary instant (`app.rs` event loop). -/
inductive Reachable : App → Prop
  | init (questions : List Question) (now : Nat) (a : App) :
      App.new? questions now = some a → Reachable a
  | hint (a : App) (now : Nat) : Reachable a → Reachable (a.handle_hint_request now)
  | next (a : App) (now : Nat) : Reachable a → Reachable (a.handle_next_question now)

/-- The trace of `current_index` values observed when dispatching the
"next question" input at each instant of `ts` in turn: the index before
any call, then the index after each call. -/
def visitTrace (a : App) (ts : List Nat) : List Nat :=
  match ts with
  | [] => [a.quiz_state.current_index]
  | t :: rest => a.quiz_state.current_index :: visitTrace (a.handle_next_question t) rest

/-- The "next question" input arrives at the instants of `ts`, each one at
a moment when the then-current timer is expired. -/
inductive ExpiredAlong : App → List Nat → Prop
  | nil (a : App) : ExpiredAlong a []
  | cons (a : App) (t : Nat) (ts : List Nat) :
      a.quiz_state.timer.is_expired t = true →
      ExpiredAlong (a.handle_next_question t) ts →
      ExpiredAlong a (t :: ts)

/-- The Quiz Session invariant of the data model: the timer's limit equals
the duration made from the current question's `time_limit_secs` (in
particular `current_index` is in bounds). -/
def timerInv (s : QuizState) : Prop :=
  ∃ q, s.current_question? = some q ∧
    s.timer.limit = durationFromSecs q.time_limit_secs

/-- A question with three hints and a 60-second limit, shaped like question 1
of `InMemoryQuestionRepository::get_questions`. -/
def qHints : Question :=
  { id := 1, question := "q1", hints := ["h1", "h2", "h3"], answer := "a1",
    time_limit_secs := 60 }

/-- A question whose time limit is zero seconds: its timer is expired at
every instant. -/
def qZero : Question :=
  { id := 2, question := "q2", hints := ["h"], answer := "a2",
    time_limit_secs := 0 }

/-- A question with no hints and a 90-second limit. -/
def qNext : Question :=
  { id := 3, question := "q3", hints := [], answer := "a3",
    time_limit_secs := 90 }

/-- The app state `App::new` builds over the single question `qHints` at
instant 0. -/
def appOne : App :=
  { quiz_state :=
      { questions := [qHints], current_index := 0,
        timer := { started := 0, limit := durationFromSecs 60 } },
    hint_state := { show_hints := false, hint_index := 0 } }

/-- The app state `App::new` builds over `[qZero, qNext]` at instant 0. -/
def appTwo : App :=
  { quiz_state :=
      { questions := [qZero, qNext], current_index := 0,
        timer := { started := 0, limit := 0 } },
    hint_state := { show_hints := false, hint_index := 0 } }

theorem next_question_questions (s : QuizState) (now : Nat) :
    (s.next_question now).questions = s.questions := by
  unfold QuizState.next_question
  split <;> rfl

theorem handle_hint_request_quiz_state (a : App) (now : Nat) :
    (a.handle_hint_request now).quiz_state = a.quiz_state := by
  unfold App.handle_hint_request
  split
  · rfl
  · split <;> rfl

/-- C1: `App::handle_next_question` guards the whole "advance" action on
`timer().is_expired()`: when the timer is not expired the dispatch leaves
the entire app state — `current_index`, `timer`, `questions`, and the
hint state — unchanged. -/
theorem next_question_input_noop_when_not_expired (a : App) (now : Nat)
    (h : a.quiz_state.timer.is_expired now = false) :
    a.handle_next_question now = a := by
  simp [App.handle_next_question, h]

theorem next_question_input_noop_when_not_expired_witness :
    appOne.quiz_state.timer.is_expired 5 = false ∧
    appOne.handle_next_question 5 = appOne :=
  ⟨by decide, next_question_input_noop_when_not_expired appOne 5 (by decide)⟩

/-- C3 counterexample: `QuizState::new` on an empty question vector does
not produce any session nor any structured error — the Rust code indexes
`questions[0]` with no emptiness check and panics (modelled as `none`);
no `EmptyQuestionBank` error type exists anywhere in the code. -/
theorem quiz_new_empty_panics : QuizState.new? [] 0 = none := rfl

/-- C3 (amended): construction from an empty sequence panics (no error
result), and construction from a non-empty sequence succeeds with
`current_index = 0` and a fresh timer using `questions[0].time_limit_secs`. -/
theorem quiz_new_nonempty_initialized (q : Question) (rest : List Question) (now : Nat) :
    QuizState.new? (q :: rest) now =
      some { questions := q :: rest, current_index := 0,
             timer := { started := now, limit := durationFromSecs q.time_limit_secs } } ∧
    QuizState.new? [] now = none :=
  ⟨rfl, rfl⟩

/-- C4: on the last question (`current_index = len - 1`), any number of
`next_question` calls, at arbitrary instants and hence regardless of timer
expiry, leaves the session completely unchanged. -/
theorem advance_on_last_question_noop (s : QuizState) (ts : List Nat)
    (_hne : s.questions ≠ []) (hlast : s.current_index = s.questions.length - 1) :
    ts.foldl (fun st t => st.next_question t) s = s := by
  have hstep : ∀ t, s.next_question t = s := by
    intro t
    unfold QuizState.next_question
    rw [dif_pos (by omega)]
  induction ts with
  | nil => rfl
  | cons t ts ih =>
      rw [List.foldl_cons, hstep t]
      exact ih

theorem advance_on_last_question_noop_witness :
    ([qHints] ≠ [] ∧ (0 : Nat) = [qHints].length - 1) ∧
    [0, 100, 1000000000000].foldl
      (fun st t => st.next_question t) appOne.quiz_state = appOne.quiz_state :=
  ⟨⟨by decide, by decide⟩,
   advance_on_last_question_noop appOne.quiz_state [0, 100, 1000000000000]
     (by decide) (by decide)⟩

/-- C5 counterexample: with `max_hints = 0` and the only invariant-satisfying
starting index 0, `next_hint` leaves the index at 0, which is not strictly
below `max_hints` — so "`advance` never produces `index >= max_hints` for
any `max_hints >= 0`" fails at `max_hints = 0` (exactly where the claim's
own "index stays 0" part forces `index = max_hints`). -/
theorem hint_advance_zero_max_reaches_max :
    (HintState.new.next_hint 0).hint_index = 0 ∧
    ¬ (HintState.new.next_hint 0).hint_index < 0 := by
  decide

theorem next_hint_iterate_min (m : Nat) : ∀ (k : Nat) (hs : HintState),
    hs.hint_index ≤ m - 1 →
    ((fun h => HintState.next_hint h m)^[k] hs).hint_index = min (hs.hint_index + k) (m - 1)
  | 0, hs, h => by
      simpa using (Nat.min_eq_left h).symm
  | k + 1, hs, h => by
      rw [Function.iterate_succ_apply]
      by_cases hc : hs.hint_index < m - 1
      · have hstep : HintState.next_hint hs m = { hs with hint_index := hs.hint_index + 1 } := by
          simp [HintState.next_hint, hc]
        rw [hstep, next_hint_iterate_min m k _ (by simpa using hc)]
        show min (hs.hint_index + 1 + k) (m - 1) = min (hs.hint_index + (k + 1)) (m - 1)
        omega
      · have hstep : HintState.next_hint hs m = hs := by
          simp [HintState.next_hint, hc]
        rw [hstep, next_hint_iterate_min m k hs h]
        omega

/-- C5 (amended): from any index satisfying the tracker invariant
(`index <= max_hints - 1`), `next_hint` keeps `index < max_hints` whenever
`max_hints >= 1`; with `max_hints = 0` it is a no-op (so the index stays 0
from the invariant-satisfying start); and `k > max_hints` calls saturate the
index at `max_hints - 1` when `max_hints >= 1`. -/
theorem hint_advance_saturates (hs : HintState) (m k : Nat)
    (hinv : hs.hint_index ≤ m - 1) :
    (1 ≤ m → (hs.next_hint m).hint_index < m) ∧
    hs.next_hint 0 = hs ∧
    (1 ≤ m → m < k →
      ((fun h => HintState.next_hint h m)^[k] hs).hint_index = m - 1) := by
  refine ⟨?_, ?_, ?_⟩
  · intro hm
    unfold HintState.next_hint
    split
    · show hs.hint_index + 1 < m
      omega
    · omega
  · unfold HintState.next_hint
    rw [if_neg (by omega)]
  · intro hm hk
    rw [next_hint_iterate_min m k hs hinv]
    omega

theorem hint_advance_saturates_witness :
    HintState.new.hint_index ≤ 3 - 1 ∧
    ((1 ≤ 3 → (HintState.new.next_hint 3).hint_index < 3) ∧
      HintState.new.next_hint 0 = HintState.new ∧
      (1 ≤ 3 → 3 < 5 →
        ((fun h => HintState.next_hint h 3)^[5] HintState.new).hint_index = 3 - 1)) :=
  ⟨by decide, hint_advance_saturates HintState.new 3 5 (by decide)⟩

/-- C7: `Timer::remaining` is `limit - elapsed` clamped at zero (stated over
the integers: it equals `max 0 (limit - elapsed)` and is never negative),
and whenever the elapsed duration reaches the limit, `is_expired` is true
and `remaining` is exactly 0. -/
theorem remaining_never_underflows (t : Timer) (now : Nat) :
    (((t.remaining now : Int) = max 0 ((t.limit : Int) - (t.elapsed now : Int))) ∧
      0 ≤ (t.remaining now : Int)) ∧
    (t.limit ≤ t.elapsed now → t.is_expired now = true ∧ t.remaining now = 0) := by
  unfold Timer.remaining Timer.is_expired
  refine ⟨⟨by omega, by omega⟩, fun h => ⟨decide_eq_true h, by omega⟩⟩

theorem remaining_never_underflows_witness :
    (Timer.mk 3 5).limit ≤ (Timer.mk 3 5).elapsed 20 ∧
    ((((Timer.mk 3 5).remaining 20 : Int) =
        max 0 (((Timer.mk 3 5).limit : Int) - ((Timer.mk 3 5).elapsed 20 : Int)) ∧
      0 ≤ ((Timer.mk 3 5).remaining 20 : Int)) ∧
      ((Timer.mk 3 5).limit ≤ (Timer.mk 3 5).elapsed 20 →
        (Timer.mk 3 5).is_expired 20 = true ∧ (Timer.mk 3 5).remaining 20 = 0)) :=
  ⟨by decide, remaining_never_underflows (Timer.mk 3 5) 20⟩

/-- C9: `Timer::new(0)` and `Timer::reset(0)` are accepted (both are total;
the code has no assertion or error path rejecting a zero limit, despite the
spec requiring `limit > 0`), and the resulting timer is expired at every
instant with `remaining() == 0`. -/
theorem zero_limit_timer_always_expired (now0 now : Nat) (t : Timer) :
    ((Timer.new 0 now0).is_expired now = true ∧ (Timer.new 0 now0).remaining now = 0) ∧
    ((t.reset 0 now0).is_expired now = true ∧ (t.reset 0 now0).remaining now = 0) := by
  refine ⟨⟨?_, ?_⟩, ⟨?_, ?_⟩⟩ <;>
    simp [Timer.new, Timer.reset, Timer.is_expired, Timer.remaining, Timer.elapsed,
      durationFromSecs]

/-- C10: `HintState::next_hint` never touches the `show_hints` flag: hint
visibility after the call equals visibility before, for every prior state
and every `max_hints`. -/
theorem next_hint_preserves_visibility (hs : HintState) (m : Nat) :
    (hs.next_hint m).show_hints = hs.show_hints := by
  unfold HintState.next_hint
  split <;> rfl

/-- C2 (code bug): from a fresh Hint Tracker on a question with 3 hints and
an unexpired timer, three "request hint" presses yield `hint_index` values
1, 2, 2 — not the 0, 1, 2 the spec states.  `handle_hint_request` enables
visibility and increments the index in the same press, so `hints[0]` is
never the displayed hint on a question with at least two hints. -/
theorem hint_press_sequence_is_one_two_two :
    (App.new? [qHints] 0).map (fun a =>
      ((a.handle_hint_request 0).hint_state,
        ((a.handle_hint_request 0).handle_hint_request 0).hint_state,
        (((a.handle_hint_request 0).handle_hint_request 0).handle_hint_request 0).hint_state))
      = some ({ show_hints := true, hint_index := 1 },
              { show_hints := true, hint_index := 2 },
              { show_hints := true, hint_index := 2 }) := by
  decide

theorem next_question_cases (s : QuizState) (now : Nat) :
    s.next_question now = s ∨
    ∃ q, s.questions.get? (s.current_index + 1) = some q ∧
      s.next_question now =
        { questions := s.questions, current_index := s.current_index + 1,
          timer := Timer.new q.time_limit_secs now } := by
  unfold QuizState.next_question
  split
  · exact Or.inl rfl
  · rename_i h
    refine Or.inr ⟨s.questions.get ⟨s.current_index + 1, by omega⟩, ?_, rfl⟩
    exact List.get?_eq_get _

theorem timerInv_next_question (s : QuizState) (now : Nat) (h : timerInv s) :
    timerInv (s.next_question now) := by
  rcases next_question_cases s now with hc | ⟨q, hq, hc⟩
  · rw [hc]
    exact h
  · rw [hc]
    exact ⟨q, hq, rfl⟩

theorem timerInv_reachable (a : App) (h : Reachable a) : timerInv a.quiz_state := by
  induction h with
  | init qs now b hnew =>
      cases qs with
      | nil => simp [App.new?, QuizState.new?] at hnew
      | cons q rest =>
          simp [App.new?, QuizState.new?] at hnew
          subst hnew
          exact ⟨q, rfl, rfl⟩
  | hint b now _ ih =>
      rw [handle_hint_request_quiz_state]
      exact ih
  | next b now _ ih =>
      unfold App.handle_next_question
      split
      · exact timerInv_next_question _ _ ih
      · exact ih

/-- C6: for every reachable app state, the session timer's limit equals the
duration of the current question's `time_limit_secs` (as set when that
question became current); the hint handler never touches the session, and
the next-question handler either leaves the session unchanged or changes
`current_index` and `timer` together — incrementing the index and
installing a fresh timer bound to the new current question's limit. -/
theorem session_timer_matches_current_question (a : App) (h : Reachable a) :
    (∃ q, a.quiz_state.current_question? = some q ∧
        a.quiz_state.timer.limit = durationFromSecs q.time_limit_secs) ∧
    (∀ now, (a.handle_hint_request now).quiz_state = a.quiz_state) ∧
    (∀ now, (a.handle_next_question now).quiz_state = a.quiz_state ∨
        ∃ q, a.quiz_state.questions.get? (a.quiz_state.current_index + 1) = some q ∧
          (a.handle_next_question now).quiz_state =
            { questions := a.quiz_state.questions,
              current_index := a.quiz_state.current_index + 1,
              timer := Timer.new q.time_limit_secs now }) := by
  refine ⟨timerInv_reachable a h, fun now => handle_hint_request_quiz_state a now,
    fun now => ?_⟩
  unfold App.handle_next_question
  split
  · exact next_question_cases _ _
  · exact Or.inl rfl

theorem session_timer_matches_current_question_witness :
    Reachable appOne ∧
    ((∃ q, appOne.quiz_state.current_question? = some q ∧
        appOne.quiz_state.timer.limit = durationFromSecs q.time_limit_secs) ∧
      (∀ now, (appOne.handle_hint_request now).quiz_state = appOne.quiz_state) ∧
      (∀ now, (appOne.handle_next_question now).quiz_state = appOne.quiz_state ∨
          ∃ q, appOne.quiz_state.questions.get?
                (appOne.quiz_state.current_index + 1) = some q ∧
            (appOne.handle_next_question now).quiz_state =
              { questions := appOne.quiz_state.questions,
                current_index := appOne.quiz_state.current_index + 1,
                timer := Timer.new q.time_limit_secs now })) :=
  have hr : Reachable appOne := Reachable.init [qHints] 0 appOne rfl
  ⟨hr, session_timer_matches_current_question appOne hr⟩

theorem next_question_advances (s : QuizState) (now : Nat)
    (h : s.current_index + 1 < s.questions.length) :
    (s.next_question now).current_index = s.current_index + 1 := by
  unfold QuizState.next_question
  rw [dif_neg (by omega)]

theorem handle_next_question_questions (a : App) (t : Nat) :
    (a.handle_next_question t).quiz_state.questions = a.quiz_state.questions := by
  unfold App.handle_next_question
  split
  · exact next_question_questions _ _
  · rfl

theorem visitTrace_expired (ts : List Nat) : ∀ (a : App),
    a.quiz_state.current_index + ts.length < a.quiz_state.questions.length →
    ExpiredAlong a ts →
    visitTrace a ts = List.range' a.quiz_state.current_index (ts.length + 1) := by
  induction ts with
  | nil =>
      intro a _ _
      rfl
  | cons t ts ih =>
      intro a hb hexp
      simp only [List.length_cons] at hb
      cases hexp with
      | cons _ _ _ hexpired htail =>
          have hQ : (a.handle_next_question t).quiz_state = a.quiz_state.next_question t := by
            unfold App.handle_next_question
            rw [if_pos hexpired]
          have hques : (a.handle_next_question t).quiz_state.questions =
              a.quiz_state.questions := handle_next_question_questions a t
          have hidx : (a.handle_next_question t).quiz_state.current_index =
              a.quiz_state.current_index + 1 := by
            rw [hQ]
            exact next_question_advances _ _ (by omega)
          simp only [visitTrace, List.length_cons]
          rw [List.range'_succ]
          rw [ih (a.handle_next_question t) (by rw [hidx, hques]; omega) htail, hidx]

/-- C8: from a freshly constructed session over `N` questions, dispatching
the "next question" input `N - 1` times, each time at an instant where the
then-current timer is expired, makes `current_index` take exactly the
values `0, 1, ..., N - 1` in order, with no index skipped or repeated. -/
theorem advance_while_expired_visits_all (qs : List Question) (now : Nat) (a : App)
    (ts : List Nat) (hnew : App.new? qs now = some a) (hlen : ts.length = qs.length - 1)
    (hexp : ExpiredAlong a ts) :
    visitTrace a ts = List.range qs.length := by
  cases qs with
  | nil => simp [App.new?, QuizState.new?] at hnew
  | cons q rest =>
      simp [App.new?, QuizState.new?] at hnew
      subst hnew
      simp only [List.length_cons, Nat.add_sub_cancel] at hlen
      have h := visitTrace_expired ts _ (by simp [hlen]) hexp
      rw [h, List.range_eq_range']
      simp only [List.length_cons]
      rw [hlen]

theorem advance_while_expired_visits_all_witness :
    App.new? [qZero, qNext] 0 = some appTwo ∧
    [(7 : Nat)].length = [qZero, qNext].length - 1 ∧
    ExpiredAlong appTwo [7] ∧
    visitTrace appTwo [7] = List.range [qZero, qNext].length :=
  have h1 : App.new? [qZero, qNext] 0 = some appTwo := rfl
  have h3 : ExpiredAlong appTwo [7] :=
    ExpiredAlong.cons _ _ _ (by decide) (ExpiredAlong.nil _)
  ⟨h1, rfl, h3, advance_while_expired_visits_all [qZero, qNext] 0 appTwo [7] h1 rfl h3⟩
